import Mathlib

/-!
Verification development for the `time_tracker` session-document model.

The definitions below are a shallow embedding of the Rust sources
`src/session.rs` and `src/date_time.rs`:

* `chrono::DateTime<chrono::Local>` is modelled by `CDateTime`, a UTC
  timestamp in whole milliseconds together with a fixed local-offset in
  minutes.  `chrono::Local` is modelled as a fixed-offset timezone (no
  daylight-saving transitions); all operations that in `chrono` re-resolve
  the ambient local offset keep the offset of their input.  The validity
  range of `chrono` timestamps (about ±262000 years) is not modelled:
  timestamps are unbounded integers.
* Rust `String`/`&str` values are Lean `String`s; the `str` methods used by
  the sources (`trim`, `lines`, `starts_with`, `ends_with`, `contains`,
  slicing, `parse`) are re-implemented below on `String.data` so that the
  byte indices of the ASCII sources become character indices.
* `HashSet<Tag>` is modelled as a duplicate-free `List Tag` in insertion
  order; `HashSet::insert` becomes `insertTagSet`.
* Fallible Rust functions returning `Result` become `Except String`;
  functions that can `panic!`/`expect` on inputs excluded by the stated
  invariants (a session always has at least one mark, `get_time` requires
  `start <= end`) return `Option`/default values at those points, as noted
  at each definition.
-/

namespace TimeTracker

/-! ## Rust `str` helpers (`trim`, `lines`, `starts_with`, ...) -/

/-- Model of Rust `str::trim` on a character list: drop leading and
trailing whitespace. -/
def trimChars (l : List Char) : List Char :=
  ((l.dropWhile Char.isWhitespace).reverse.dropWhile Char.isWhitespace).reverse

/-- Model of Rust `str::trim`. -/
def rustTrim (s : String) : String :=
  String.mk (trimChars s.data)

/-- Model of Rust `str::starts_with`. -/
def strStarts (s p : String) : Bool :=
  p.data.isPrefixOf s.data

/-- Model of Rust `str::ends_with`. -/
def strEnds (s p : String) : Bool :=
  p.data.isSuffixOf s.data

/-- Model of Rust byte slicing `&s[n..]` (the sources only slice at ASCII
positions, where bytes and characters coincide). -/
def strDrop (n : Nat) (s : String) : String :=
  String.mk (s.data.drop n)

/-- Model of Rust `str::contains` for a literal substring pattern. -/
def listHasSub (sub : List Char) : List Char → Bool
  | [] => sub.isEmpty
  | c :: t => sub.isPrefixOf (c :: t) || listHasSub sub t

/-- Model of Rust `str::contains` on `String`s. -/
def strContains (s sub : String) : Bool :=
  listHasSub sub.data s.data

/-- Strip one trailing carriage return, as Rust `str::lines` does per line. -/
def stripCr (l : List Char) : List Char :=
  if l.getLast? = some '\r' then l.dropLast else l

/-- Model of Rust `str::lines` on a character list: split on `'\n'`,
dropping the final empty segment produced by a trailing newline and a
trailing `'\r'` on each line.  `""` yields no lines. -/
def linesChars (l : List Char) : List (List Char) :=
  let segs := l.splitOn '\n'
  let segs := if segs.getLast? = some [] then segs.dropLast else segs
  segs.map stripCr

/-- Model of Rust `str::lines`. -/
def rustLines (s : String) : List String :=
  (linesChars s.data).map String.mk

/-- Model of `Vec<&str>::join("\n")`. -/
def joinNl (ls : List String) : String :=
  String.intercalate "\n" ls

/-! ## Rust integer parsing (`str::parse::<u32>` / `str::parse::<i64>`) -/

/-- Numeric value of a decimal digit string. -/
def digitsVal (l : List Char) : Nat :=
  l.foldl (fun a c => a * 10 + (c.toNat - 48)) 0

/-- Model of `chrono::DateTime<chrono::Local>`: UTC timestamp in whole
milliseconds plus a fixed local offset in minutes. -/
structure CDateTime where
  ts : Int
  offMin : Int
deriving DecidableEq, Repr

instance : Inhabited CDateTime := ⟨⟨0, 0⟩⟩

/-- The smallest value of Rust's `i64`. -/
def i64Min : Int := -(2 ^ 63)

/-- The largest value of Rust's `i64`. -/
def i64Max : Int := 2 ^ 63 - 1

/-- Timestamp magnitude (milliseconds, about ±146000 years) within which
the model treats `chrono::DateTime::from_timestamp_millis(..).unwrap()` as
succeeding.  This is a conservative under-approximation of chrono's real
validity range (about ±262000 years): inside the bound the source
provably succeeds and returns the nominal instant; outside it the model
returns `none`, covering both the genuine unwrap panics and a disclosed
margin where chrono would still succeed.  No theorem in this file asserts
a `none` result of the functions guarded by this bound. -/
def tsBound : Int := 2 ^ 62

namespace DateTime


/-- Milliseconds of local (wall-clock) time since the epoch. -/
def local_millis (d : CDateTime) : Int :=
  d.ts + d.offMin * 60000

/-- Local civil day number (days since 1970-01-01, floor). -/
def local_day (d : CDateTime) : Int :=
  local_millis d / 86400000

/-- Local milliseconds elapsed since local midnight. -/
def ms_of_day (d : CDateTime) : Int :=
  local_millis d % 86400000

/-- Model of `chrono` `weekday().num_days_from_monday()`: 1970-01-01 was a
Thursday, three days after a Monday. -/
def num_days_from_monday (d : CDateTime) : Int :=
  (local_day d + 3) % 7

/-- `DateTime::plus_milli` (src/date_time.rs lines 26-31):
`from_timestamp_millis(self.timestamp_millis() + milli).unwrap()`.
`none` models the panics: the `i64` addition overflowing, or the unwrap
failing outside chrono's validity range (see `tsBound`); under the
fixed-offset model of `chrono::Local`, `.into()` keeps the offset. -/
def plus_milli (d : CDateTime) (milli : Int) : Option CDateTime :=
  if -tsBound ≤ d.ts + milli ∧ d.ts + milli ≤ tsBound then some ⟨d.ts + milli, d.offMin⟩
  else none

/-- `DateTime::plus_days`: as `plus_seconds`, for
`days * 24 * 60 * 60 * 1000`. -/
def plus_days (d : CDateTime) (days : Int) : Option CDateTime :=
  if i64Min ≤ days * 24 * 60 * 60 * 1000 ∧ days * 24 * 60 * 60 * 1000 ≤ i64Max then
    plus_milli d (days * 24 * 60 * 60 * 1000)
  else none

/-- Model of `chrono` `with_time(00:00:00)`: keep the local day, set the
local time of day to midnight. -/
def with_midnight (d : CDateTime) : CDateTime :=
  ⟨local_day d * 86400000 - d.offMin * 60000, d.offMin⟩

/-- `DateTime::get_start_of_week` (src/date_time.rs lines 71-84): subtract
`num_days_from_monday` whole days from the timestamp (the function calls
`from_timestamp_millis(..).unwrap()` directly; subtracting at most six
days from a representable date stays within chrono's range, so the shift
is modelled as total here), then set the local time to `00:00:00`. -/
def get_start_of_week (date : CDateTime) : CDateTime :=
  let daysSinceMonday := num_days_from_monday date
  let date2 : CDateTime := ⟨date.ts - daysSinceMonday * 24 * 60 * 60 * 1000, date.offMin⟩
  with_midnight date2

/-- `DateTime::get_time` (src/date_time.rs lines 87-94): elapsed
milliseconds; the Rust `try_into().expect(..)` panic on a negative
difference is modelled as `none`. -/
def get_time (start e : CDateTime) : Option Nat :=
  let time := e.ts - start.ts
  if 0 ≤ time then some time.toNat else none

end DateTime

/-! ## Civil-calendar conversion and the `chrono` text format

`Mark::to_string` formats dates with `chrono`'s `"%F %T %:z"`
(`YYYY-MM-DD HH:MM:SS +HH:MM`) and `Mark::from_string` re-parses them with
`chrono::DateTime::from_str`.  The spec (§4.1) pins this down as an
ISO-8601-like fixed-width format with `parse(format(d)) == d`.  The two
functions below are the standard days-from-civil / civil-from-days
conversions used to realise that external behaviour. -/

/-- Days since 1970-01-01 of the civil date `y-m-d` (Gregorian). -/
def daysFromCivil (y : Int) (m d : Nat) : Int :=
  let y2 : Int := y - (if m ≤ 2 then 1 else 0)
  let era : Int := y2.fdiv 400
  let yoe : Nat := (y2 - era * 400).toNat
  let mp : Nat := if 2 < m then m - 3 else m + 9
  let doy : Nat := (153 * mp + 2) / 5 + d - 1
  let doe : Nat := yoe * 365 + yoe / 4 - yoe / 100 + doy
  era * 146097 + (doe : Int) - 719468

/-- Civil date `(y, m, d)` of a day number (inverse of `daysFromCivil`). -/
def civilFromDays (z0 : Int) : Int × Nat × Nat :=
  let z : Int := z0 + 719468
  let era : Int := z.fdiv 146097
  let doe : Nat := (z - era * 146097).toNat
  let yoe : Nat := (doe - doe / 1460 + doe / 36524 - doe / 146096) / 365
  let doy : Nat := doe - (365 * yoe + yoe / 4 - yoe / 100)
  let mp : Nat := (5 * doy + 2) / 153
  let d : Nat := doy - (153 * mp + 2) / 5 + 1
  let m : Nat := if mp < 10 then mp + 3 else mp - 9
  (era * 400 + yoe + (if m ≤ 2 then 1 else 0), m, d)

/-- Decimal digits of a `Nat` (30 digits of fuel, far beyond any date). -/
def natToCharsAux : Nat → Nat → List Char
  | 0, _ => []
  | fuel + 1, n =>
    if n < 10 then [Char.ofNat (48 + n)]
    else natToCharsAux fuel (n / 10) ++ [Char.ofNat (48 + n % 10)]

/-- Decimal rendering of a `Nat`. -/
def natToChars (n : Nat) : List Char :=
  natToCharsAux 30 n

/-- Zero-padded decimal rendering. -/
def padNum (width n : Nat) : List Char :=
  let ds := natToChars n
  List.replicate (width - ds.length) '0' ++ ds

/-- The `%:z` offset rendering (`+HH:MM` / `-HH:MM`). -/
def offChars (offMin : Int) : List Char :=
  let a := offMin.natAbs
  (if 0 ≤ offMin then ['+'] else ['-']) ++ padNum 2 (a / 60) ++ [':'] ++ padNum 2 (a % 60)

/-- Model of `DateTime::to_formatted_pretty` (`"%F %T %:z"`), the format
used for mark headings. -/
def DateTime.to_formatted_pretty (dt : CDateTime) : String :=
  let day := DateTime.local_day dt
  let c := civilFromDays day
  let tod := (DateTime.ms_of_day dt).toNat
  String.mk <|
    (if c.1 < 0 then ['-'] else []) ++ padNum 4 c.1.natAbs
    ++ ['-'] ++ padNum 2 c.2.1 ++ ['-'] ++ padNum 2 c.2.2
    ++ [' '] ++ padNum 2 (tod / 3600000) ++ [':'] ++ padNum 2 (tod / 60000 % 60)
    ++ [':'] ++ padNum 2 (tod / 1000 % 60)
    ++ [' '] ++ offChars dt.offMin

/-- Parse exactly two decimal digits. -/
def parse2 : List Char → Option (Nat × List Char)
  | a :: b :: rest =>
    if a.isDigit && b.isDigit then
      some ((a.toNat - 48) * 10 + (b.toNat - 48), rest)
    else none
  | _ => none

/-- Expect a single given character. -/
def expectChar (c : Char) : List Char → Option (List Char)
  | x :: rest => if x = c then some rest else none
  | [] => none

/-- Date part (`-MM-DD`) of the `chrono` parse. -/
def parseDTdate (l : List Char) : Option (Nat × Nat × List Char) := do
  let l ← expectChar '-' l
  let (mo, l) ← parse2 l
  let l ← expectChar '-' l
  let (dy, l) ← parse2 l
  some (mo, dy, l)

/-- Time part (`HH:MM:SS` after a `' '` or `'T'` separator) of the
`chrono` parse. -/
def parseDTtime (l : List Char) : Option (Nat × Nat × Nat × List Char) := do
  let l ← match l with
    | ' ' :: r => some r
    | 'T' :: r => some r
    | _ => none
  let (h, l) ← parse2 l
  let l ← expectChar ':' l
  let (mi, l) ← parse2 l
  let l ← expectChar ':' l
  let (se, l) ← parse2 l
  some (h, mi, se, l)

/-- Offset part (`±HH:MM`, optionally preceded by a space) of the
`chrono` parse. -/
def parseDToff (l : List Char) : Option (Bool × Nat × Nat × List Char) := do
  let l := if l.head? = some ' ' then l.tail else l
  let (neg, l) ← match l with
    | '+' :: r => some (false, r)
    | '-' :: r => some (true, r)
    | _ => none
  let (oh, l) ← parse2 l
  let l ← expectChar ':' l
  let (om, l) ← parse2 l
  some (neg, oh, om, l)

/-- Model of `chrono::DateTime::from_str` restricted to the shapes the
codec round-trips: `YYYY-MM-DD HH:MM:SS +HH:MM` with either `' '` or `'T'`
between date and time, an optional space before the offset, and basic
range checks.  (The real parser accepts further RFC 3339 variations; the
canonical encoder output above is always of this shape.)  Under the
fixed-offset model of `chrono::Local`, the parsed offset is kept. -/
def parseDT (s : String) : Option CDateTime := do
  let l := s.data
  let yds := l.takeWhile Char.isDigit
  let l ← if yds.length = 4 then some (l.drop 4) else none
  let (mo, dy, l) ← parseDTdate l
  let (h, mi, se, l) ← parseDTtime l
  let (neg, oh, om, l) ← parseDToff l
  if l = [] ∧ 1 ≤ mo ∧ mo ≤ 12 ∧ 1 ≤ dy ∧ dy ≤ 31 ∧ h < 24 ∧ mi < 60 ∧ se < 60
      ∧ oh < 24 ∧ om < 60 then
    let offMin : Int := (if neg then -1 else 1) * ((oh : Int) * 60 + om)
    some ⟨daysFromCivil (digitsVal yds) mo dy * 86400000
      + ((h : Int) * 3600 + mi * 60 + se) * 1000 - offMin * 60000, offMin⟩
  else none

/-! ## The document model (`src/session.rs`) -/

/-- `Tag` (src/session.rs lines 467-470). -/
structure Tag where
  text : String
deriving DecidableEq, Repr

/-- `Attribute` (src/session.rs lines 441-447). -/
inductive Attribute where
  | stop
  | skip
  | none
deriving DecidableEq, Repr

/-- `Mark` (src/session.rs lines 337-344).  The field `attribute` is named
`attr` because `attribute` is a Lean keyword; `tags` models the
`HashSet<Tag>` as a duplicate-free list in insertion order. -/
structure Mark where
  date : CDateTime
  attr : Attribute
  tags : List Tag
  contents : String
deriving DecidableEq, Repr

/-- `Session` (src/session.rs lines 152-156); the `PathBuf` is an opaque
string. -/
structure Session where
  path : String
  marks : List Mark
deriving DecidableEq, Repr

/-- `SessionFile` (src/session.rs lines 101-105). -/
structure SessionFile where
  path : String
  contents : String
deriving DecidableEq, Repr

/-- `Attribute::from_line` (src/session.rs lines 450-456). -/
def Attribute.from_line (text : String) : Attribute :=
  if rustTrim text = "- end" then .stop
  else if rustTrim text = "- skip" then .skip
  else .none

/-- `Attribute::to_line` (src/session.rs lines 458-464). -/
def Attribute.to_line : Attribute → String
  | .stop => "- end"
  | .skip => "- skip"
  | .none => ""

/-- `Tag::from_text` (src/session.rs lines 474-485). -/
def Tag.from_text (text : String) : Except String Tag :=
  let t := rustTrim text
  if t = "" then .error "tag cannot be empty"
  else if strContains t "`" then .error "invalid character"
  else .ok { text := t }

/-- `Tag::from_line` (src/session.rs lines 487-502): requires the shape
``- tag `...` `` and a non-empty trimmed inner text.  On the single input
`"- tag `"` (7 characters) the Rust slice `text[7..6]` panics; here the
inner text comes out empty and the `"tag cannot be empty"` error is
returned instead, so theorems about this function exclude that input. -/
def Tag.from_line (text : String) : Except String Tag :=
  if strStarts text "- tag `" && strEnds text "`" then
    let tagText := rustTrim (String.mk ((text.data.take (text.data.length - 1)).drop 7))
    if tagText = "" then .error "tag cannot be empty"
    else .ok { text := tagText }
  else .error ("couldn't parse tag from string '" ++ text ++ "'")

/-- `Tag::to_line` (src/session.rs lines 504-509). -/
def Tag.to_line (t : Tag) : String :=
  "- tag `" ++ t.text ++ "`"

/-- `HashSet::insert` on the list model: append if absent. -/
def insertTagSet (ts : List Tag) (t : Tag) : List Tag :=
  if t ∈ ts then ts else ts ++ [t]

/-- The label-classification loop of `Mark::from_string` (src/session.rs
lines 381-393): scan lines while they start with `"- "`; a line is taken
as the attribute while none is set (even when it parses to `None`, which
silently drops leading tag lines), a second attribute line is an error,
and otherwise the line must parse as a tag. -/
def labelLoop : List String → Attribute → List Tag → Except String (Attribute × List Tag)
  | [], attr, tags => .ok (attr, tags)
  | line :: rest, attr, tags =>
    if strStarts line "- " then
      if attr = .none then labelLoop rest (Attribute.from_line line) tags
      else if Attribute.from_line line ≠ .none then
        .error "multiple attributes per mark are not allowed"
      else
        match Tag.from_line line with
        | .ok t => labelLoop rest attr (insertTagSet tags t)
        | .error e => .error e
    else .ok (attr, tags)

/-- The lines of a mark block after the Rust `contents.trim()`. -/
def markBlockLines (s : String) : List String :=
  rustLines (rustTrim s)

/-- The `contents_without_heading` value of `Mark::from_string`
(src/session.rs lines 372-377): every line after the heading, each
prefixed by `"\n"`, then trimmed. -/
def contentsWithoutHeading (s : String) : String :=
  rustTrim ((markBlockLines s).tail.foldl (fun acc v => acc ++ "\n" ++ v) "")

/-- `Mark::from_string` (src/session.rs lines 365-409).  The date is the
first line with the 4-byte `"### "` prefix sliced off (the Rust slice
panics when the first line is shorter; callers always pass lines starting
with `"### "`, and theorems assume that). -/
def Mark.from_string (contents : String) : Except String Mark :=
  match markBlockLines contents with
  | [] => .error "couldn't parse mark heading"
  | l0 :: _ =>
    match parseDT (strDrop 4 l0) with
    | Option.none => .error "couldn't parse mark date"
    | some date =>
      if strStarts (contentsWithoutHeading contents) "- " then
        match labelLoop (rustLines (contentsWithoutHeading contents)) .none [] with
        | .error e => .error e
        | .ok (attr, tags) =>
          .ok { date := date, attr := attr, tags := tags,
                contents := rustTrim (joinNl
                  ((rustLines (contentsWithoutHeading contents)).drop
                    (tags.length + (if attr ≠ .none then 1 else 0)))) }
      else
        .ok { date := date, attr := .none, tags := [],
              contents := contentsWithoutHeading contents }

/-- Rust byte-wise `String` ordering on the ASCII texts at hand. -/
def strLe (a b : String) : Bool :=
  go a.data b.data
where
  go : List Char → List Char → Bool
    | [], _ => true
    | _ :: _, [] => false
    | x :: xs, y :: ys =>
      if x.toNat < y.toNat then true
      else if y.toNat < x.toNat then false
      else go xs ys

/-- Insert into a list sorted by `Tag.text` (model of
`tags.sort_by(|a, b| a.text.cmp(&b.text))`). -/
def insertTagSorted (t : Tag) : List Tag → List Tag
  | [] => [t]
  | u :: us => if strLe t.text u.text then t :: u :: us else u :: insertTagSorted t us

/-- Sort tags alphabetically by text, as `Mark::to_string` does. -/
def sortTags (l : List Tag) : List Tag :=
  l.foldr insertTagSorted []

/-- The heading/attribute/tag part of `Mark::to_string` (src/session.rs
lines 412-431); it does not read `contents`. -/
def markHeaderPart (m : Mark) : String :=
  let c0 := "### " ++ DateTime.to_formatted_pretty m.date
  if m.attr ≠ .none ∨ m.tags ≠ [] then
    let c1 := c0 ++ "\n"
    let c2 := if m.attr ≠ .none then c1 ++ "\n" ++ m.attr.to_line else c1
    if m.tags ≠ [] then
      c2 ++ (sortTags m.tags).foldl (fun acc t => acc ++ "\n" ++ t.to_line) ""
    else c2
  else c0

/-- `Mark::to_string` (src/session.rs lines 411-438): header part, then the
trimmed contents after a blank line when non-empty. -/
def Mark.to_string (m : Mark) : String :=
  let trimmed := rustTrim m.contents
  if trimmed ≠ "" then markHeaderPart m ++ "\n\n" ++ trimmed
  else markHeaderPart m

/-- `SessionFile::get_heading_level` (src/session.rs lines 140-149). -/
def get_heading_level (heading : String) : Nat :=
  ((rustTrim heading).data.takeWhile (fun c => c = '#')).length

/-- One step of the scan in `SessionFile::get_heading_with_contents`
(src/session.rs lines 124-135): state is (is_within, text). -/
def headingScanStep (headingLevel : Nat) (heading : String)
    (st : Bool × String) (line : String) : Bool × String :=
  let w := st.1
  let w := if strStarts line "#" && decide (get_heading_level line ≤ headingLevel) then false else w
  let w := if strStarts line heading then true else w
  if w then (w, st.2 ++ rustTrim line ++ "\n") else (w, st.2)

/-- `SessionFile::get_heading_with_contents` (src/session.rs lines
120-138). -/
def get_heading_with_contents (heading contents : String) : String :=
  rustTrim ((rustLines contents).foldl
    (headingScanStep (get_heading_level heading) heading) (false, "")).2

/-- `SessionFile::build` (src/session.rs lines 109-118). -/
def SessionFile.build (path contents : String) : Except String SessionFile :=
  let c := rustTrim contents
  if !(strStarts c "# ") || !(strContains c "## Marks") then
    .error "couldn't parse session file"
  else .ok { path := path, contents := c }

/-- The per-line loop of `Session::from_file` (src/session.rs lines
301-307): for every line of the marks section starting with `"### "`,
extract that heading's block and parse it, propagating the first error. -/
def fromFileGo (marksContents : String) : List String → Except String (List Mark)
  | [] => .ok []
  | line :: rest =>
    if strStarts line "### " then
      match Mark.from_string (get_heading_with_contents line marksContents) with
      | .error e => .error e
      | .ok m =>
        match fromFileGo marksContents rest with
        | .error e => .error e
        | .ok ms => .ok (m :: ms)
    else fromFileGo marksContents rest

/-- `Session::from_file` (src/session.rs lines 298-316). -/
def Session.from_file (file : SessionFile) : Except String Session :=
  let marksContents := get_heading_with_contents "## Marks" file.contents
  match fromFileGo marksContents (rustLines marksContents) with
  | .error e => .error e
  | .ok marks =>
    if marks.isEmpty then .error "there must be at least one mark for a session to be valid"
    else .ok { path := file.path, marks := marks }

/-- `Session::to_file` (src/session.rs lines 318-334). -/
def Session.to_file (s : Session) : Except String SessionFile :=
  SessionFile.build s.path
    ("# Session\n\n## Marks\n\n"
      ++ s.marks.foldl (fun acc m => acc ++ m.to_string ++ "\n\n") "")

/-- `Mark::new` (src/session.rs lines 347-354). -/
def Mark.new (date : CDateTime) : Mark :=
  { date := date, attr := .none, tags := [], contents := "" }

/-- `Session::new` (src/session.rs lines 159-165); the path is taken as an
opaque argument instead of being derived from the config directory and the
formatted date. -/
def Session.new (path : String) (d : CDateTime) : Session :=
  { path := path, marks := [Mark.new d] }

/-- `Session::start` (src/session.rs lines 179-184): the first mark's
date.  The `expect` panic on an empty mark list is modelled by the default
date; all theorems about it assume at least one mark or use it uniformly
on both sides. -/
def Session.start (s : Session) : CDateTime :=
  match s.marks.head? with
  | some m => m.date
  | Option.none => default

/-- `Session::is_active` (src/session.rs lines 194-200): the last mark's
attribute is not `Stop`.  The `expect` panic on an empty mark list is
modelled as `true`; theorems assume at least one mark. -/
def Session.is_active (s : Session) : Bool :=
  match s.marks.getLast? with
  | some m => decide (m.attr ≠ .stop)
  | Option.none => true

/-- The loop of `Session::get_time` (src/session.rs lines 204-213):
`pred` is `mark_preceding`; at the end of the list, the extrapolation to
`now` is added when the session is active and the last mark is not
skipped. -/
def getTimeGo (active : Bool) (now : CDateTime) : Mark → List Mark → Option Nat
  | pred, [] =>
    if active = true ∧ pred.attr ≠ .skip then DateTime.get_time pred.date now
    else some 0
  | pred, m :: ms =>
    if pred.attr ≠ .skip then
      match DateTime.get_time pred.date m.date with
      | some t => (getTimeGo active now m ms).map (fun r => t + r)
      | Option.none => Option.none
    else getTimeGo active now m ms

/-- `Session::get_time` (src/session.rs lines 202-215), with the current
instant passed explicitly; `none` models the panics (empty mark list, or
`DateTime::get_time` on a negative interval). -/
def Session.get_time (s : Session) (now : CDateTime) : Option Nat :=
  match s.marks with
  | [] => Option.none
  | m0 :: rest => getTimeGo s.is_active now m0 rest

/-- `Session::stop` (src/session.rs lines 217-225). -/
def Session.stop (s : Session) (d : CDateTime) : Except String Session :=
  if !s.is_active then .error "session already ended"
  else .ok { s with marks := s.marks ++ [{ Mark.new d with attr := .stop }] }

/-- `Session::skip` (src/session.rs lines 227-233): set the last mark's
attribute to `Skip` (panic on an empty mark list, modelled as no-op). -/
def Session.skip (s : Session) : Session :=
  match s.marks.getLast? with
  | some m => { s with marks := s.marks.dropLast ++ [{ m with attr := .skip }] }
  | Option.none => s

/-- `Session::mark` (src/session.rs lines 235-242). -/
def Session.mark (s : Session) (d : CDateTime) : Except String Session :=
  if !s.is_active then .error "can't mark, session has already ended"
  else .ok { s with marks := s.marks ++ [Mark.new d] }

/-- `Session::remark` (src/session.rs lines 244-250). -/
def Session.remark (s : Session) (d : CDateTime) : Session :=
  match s.marks.getLast? with
  | some m => { s with marks := s.marks.dropLast ++ [{ m with date := d }] }
  | Option.none => s

/-- `Session::unmark` (src/session.rs lines 252-260): pop and return the
last mark unless it is the only one. -/
def Session.unmark (s : Session) : Session × Option Mark :=
  if s.marks.length > 1 then ({ s with marks := s.marks.dropLast }, s.marks.getLast?)
  else (s, Option.none)

/-- `Session::tag` (src/session.rs lines 262-268). -/
def Session.tag (s : Session) (t : Tag) : Session × Bool :=
  match s.marks.getLast? with
  | some m =>
    ({ s with marks := s.marks.dropLast ++ [{ m with tags := insertTagSet m.tags t }] },
      decide (t ∉ m.tags))
  | Option.none => (s, false)

/-- `Session::untag` (src/session.rs lines 270-276). -/
def Session.untag (s : Session) (t : Tag) : Session × Bool :=
  match s.marks.getLast? with
  | some m =>
    ({ s with marks := s.marks.dropLast ++ [{ m with tags := m.tags.filter (fun u => u ≠ t) }] },
      decide (t ∈ m.tags))
  | Option.none => (s, false)

/-- `Session::write` (src/session.rs lines 279-289): set the last mark's
contents only when currently empty. -/
def Session.write (s : Session) (text : String) : Except Unit Session :=
  match s.marks.getLast? with
  | some m =>
    if m.contents ≠ "" then .error ()
    else .ok { s with marks := s.marks.dropLast ++ [{ m with contents := text }] }
  | Option.none => .error ()

/-- `Mark::erase` (src/session.rs lines 361-363). -/
def Mark.erase (m : Mark) : Mark :=
  { m with contents := "" }

/-- The week-time computation of `Aggregator::view` (src/session.rs lines
59-66): `start_of_week` of the last session's start, then a filtered fold
of `get_time` over all sessions.  `none` models the panics inside
`get_time`/`start` and the `expect` on an empty session list. -/
def Aggregator.week_time (sessions : List Session) (now : CDateTime) : Option Nat :=
  match sessions.getLast? with
  | some lastSession =>
    let startOfWeek := DateTime.get_start_of_week lastSession.start
    (sessions.filter (fun v => decide (0 ≤ v.start.ts - startOfWeek.ts))).foldl
      (fun acc v => acc.bind fun a => (v.get_time now).map fun t => a + t) (some 0)
  | Option.none => Option.none

/-- Follows the words of the spec (§4.4) for claim C2: the sum over
consecutive mark pairs of the elapsed milliseconds, restricted to pairs
whose first mark is not skipped, plus the extrapolation from the last mark
to `now` when the session is active and the last mark is not skipped. -/
def specSessionTime (active : Bool) (now : CDateTime) (marks : List Mark) : Nat :=
  ((marks.zip marks.tail).map (fun p =>
      if p.1.attr = Attribute.skip then 0 else (p.2.date.ts - p.1.date.ts).toNat)).sum
  + (match marks.getLast? with
     | some m =>
       if active = true ∧ m.attr ≠ Attribute.skip then (now.ts - m.date.ts).toNat else 0
     | Option.none => 0)

/-- Sum of `get_time` over a list of sessions (`none` when any summand is
`none`). -/
def sumTimes (now : CDateTime) : List Session → Option Nat
  | [] => some 0
  | s :: rest => (Session.get_time s now).bind fun t => (sumTimes now rest).map fun r => t + r

/-- Follows the words of the spec (§4.4) for claim C6: sum `get_time` over
exactly those sessions whose own start date falls on or after the start of
the week of the most recent session's start date. -/
def specWeekTime (sessions : List Session) (now : CDateTime) : Option Nat :=
  match sessions.getLast? with
  | some lastSession =>
    sumTimes now (sessions.filter (fun v =>
      decide ((DateTime.get_start_of_week lastSession.start).ts ≤ (Session.start v).ts)))
  | Option.none => Option.none

/-- A sample whole-second date, `2002-05-08 12:00:00 +00:00` (a
Wednesday), matching the repository's `testing::date_default`. -/
def sampleDate : CDateTime :=
  ⟨daysFromCivil 2002 5 8 * 86400000 + 43200000, 0⟩

/-! ## Basic lemmas about the string helpers -/

theorem dropWhile_dropWhile (p : Char → Bool) (l : List Char) :
    (l.dropWhile p).dropWhile p = l.dropWhile p := by
  induction l with
  | nil => rfl
  | cons a t ih =>
    cases hp : p a with
    | true => rw [List.dropWhile_cons_of_pos hp]; exact ih
    | false =>
      rw [List.dropWhile_cons_of_neg (by simp [hp])]
      exact List.dropWhile_cons_of_neg (by simp [hp])

theorem dropWhile_head_false (p : Char → Bool) :
    ∀ (l : List Char) (a : Char) (t : List Char), l.dropWhile p = a :: t → p a = false := by
  intro l
  induction l with
  | nil => intro a t h; simp at h
  | cons x xs ih =>
    intro a t h
    cases hx : p x with
    | true => rw [List.dropWhile_cons_of_pos hx] at h; exact ih a t h
    | false =>
      rw [List.dropWhile_cons_of_neg (by simp [hx])] at h
      injection h with h1 _
      rw [← h1]; exact hx

theorem trimChars_idem (l : List Char) : trimChars (trimChars l) = trimChars l := by
  unfold trimChars
  generalize hy : l.dropWhile Char.isWhitespace = y
  generalize hz : y.reverse.dropWhile Char.isWhitespace = z
  have hzy : z.reverse <+: y := by
    have h1 : z <:+ y.reverse := hz ▸ List.dropWhile_suffix _
    have h2 := (@List.reverse_prefix Char z y.reverse).mpr h1
    rwa [List.reverse_reverse] at h2
  have h2 : z.reverse.dropWhile Char.isWhitespace = z.reverse := by
    cases hzz : z.reverse with
    | nil => simp
    | cons a t =>
      obtain ⟨r, hr⟩ := hzy
      rw [hzz] at hr
      have hy2 : l.dropWhile Char.isWhitespace = a :: (t ++ r) := by
        rw [hy, ← hr]; rfl
      have ha := dropWhile_head_false Char.isWhitespace l a (t ++ r) hy2
      exact List.dropWhile_cons_of_neg (by simp [ha])
  rw [h2, List.reverse_reverse]
  have h3 : z.dropWhile Char.isWhitespace = z := by
    rw [← hz]; exact dropWhile_dropWhile _ _
  rw [h3]

theorem rustTrim_idem (s : String) : rustTrim (rustTrim s) = rustTrim s :=
  congrArg String.mk (trimChars_idem s.data)

/-- Claim C10: the mark encoder depends only on the trimmed contents of a
mark: encoding any mark gives the same text as encoding the same mark with
contents stripped of leading and trailing whitespace (blank lines
included); hence two marks differing only in such whitespace encode
identically and the encoder is not injective on raw contents. -/
theorem claim_C10 :
    (∀ (d : CDateTime) (a : Attribute) (ts : List Tag) (c : String),
        Mark.to_string ⟨d, a, ts, c⟩ = Mark.to_string ⟨d, a, ts, rustTrim c⟩)
    ∧ Mark.to_string ⟨sampleDate, .none, [], " hi\n"⟩
        = Mark.to_string ⟨sampleDate, .none, [], "hi"⟩
    ∧ (⟨sampleDate, .none, [], " hi\n"⟩ : Mark) ≠ ⟨sampleDate, .none, [], "hi"⟩ := by
  have h1 : ∀ (d : CDateTime) (a : Attribute) (ts : List Tag) (c : String),
      Mark.to_string ⟨d, a, ts, c⟩ = Mark.to_string ⟨d, a, ts, rustTrim c⟩ := by
    intro d a ts c
    have h := rustTrim_idem c
    simp only [Mark.to_string, markHeaderPart, h]
  refine ⟨h1, ?_, by decide⟩
  have h2 := h1 sampleDate .none [] " hi\n"
  have h3 : rustTrim " hi\n" = "hi" := by decide
  rwa [h3] at h2

/-- Claim C5: on an Ended session (last mark's attribute is Stop) both
`mark` and `stop` fail and change nothing; on an Active session `mark`
appends exactly one attribute-free, tag-free, contents-free mark at the
given date and `stop` appends exactly one mark with attribute Stop. -/
theorem claim_C5 (s : Session) (d : CDateTime) (_hne : s.marks ≠ []) :
    (s.is_active = false →
      s.stop d = .error "session already ended"
      ∧ s.mark d = .error "can't mark, session has already ended")
    ∧ (s.is_active = true →
      s.stop d = .ok { s with marks := s.marks ++ [⟨d, .stop, [], ""⟩] }
      ∧ s.mark d = .ok { s with marks := s.marks ++ [⟨d, .none, [], ""⟩] }) := by
  constructor
  · intro h
    constructor
    · unfold Session.stop; rw [h]; rfl
    · unfold Session.mark; rw [h]; rfl
  · intro h
    constructor
    · unfold Session.stop; rw [h]; rfl
    · unfold Session.mark; rw [h]; rfl

theorem claim_C5_witness :
    (Session.stop ⟨"p", [⟨sampleDate, .stop, [], ""⟩]⟩ sampleDate
        = .error "session already ended"
      ∧ Session.mark ⟨"p", [⟨sampleDate, .stop, [], ""⟩]⟩ sampleDate
        = .error "can't mark, session has already ended")
    ∧ (Session.stop ⟨"p", [⟨sampleDate, .none, [], ""⟩]⟩ sampleDate
        = .ok ⟨"p", [⟨sampleDate, .none, [], ""⟩, ⟨sampleDate, .stop, [], ""⟩]⟩
      ∧ Session.mark ⟨"p", [⟨sampleDate, .none, [], ""⟩]⟩ sampleDate
        = .ok ⟨"p", [⟨sampleDate, .none, [], ""⟩, ⟨sampleDate, .none, [], ""⟩]⟩) :=
  ⟨(claim_C5 ⟨"p", [⟨sampleDate, .stop, [], ""⟩]⟩ sampleDate (by decide)).1 (by decide),
    (claim_C5 ⟨"p", [⟨sampleDate, .none, [], ""⟩]⟩ sampleDate (by decide)).2 (by decide)⟩

/-- Claim C7: `skip` sets the last mark's attribute to Skip regardless of
its prior value (Stop included), changes nothing else, and afterwards
`is_active` is true again. -/
theorem claim_C7 (s : Session) (front : List Mark) (lastM : Mark)
    (h : s.marks = front ++ [lastM]) :
    s.skip = { s with marks := front ++ [{ lastM with attr := .skip }] }
    ∧ s.skip.is_active = true := by
  have h1 : s.marks.getLast? = some lastM := by rw [h]; exact List.getLast?_concat _
  have h2 : s.marks.dropLast = front := by rw [h]; exact List.dropLast_concat
  have hskip : s.skip = { s with marks := front ++ [{ lastM with attr := .skip }] } := by
    unfold Session.skip
    rw [h1, h2]
  refine ⟨hskip, ?_⟩
  rw [hskip]
  unfold Session.is_active
  simp [List.getLast?_concat]

theorem claim_C7_witness :
    Session.skip ⟨"p", [⟨sampleDate, .stop, [], ""⟩]⟩
      = ⟨"p", [⟨sampleDate, .skip, [], ""⟩]⟩
    ∧ (Session.skip ⟨"p", [⟨sampleDate, .stop, [], ""⟩]⟩).is_active = true := by
  have h := claim_C7 ⟨"p", [⟨sampleDate, .stop, [], ""⟩]⟩ [] ⟨sampleDate, .stop, [], ""⟩ rfl
  exact ⟨h.1.trans (by rfl), h.2⟩

/-- Claim C8: `unmark` on a single-mark session is a no-op returning
nothing; on a session with two or more marks it removes exactly the last
mark, keeps all others, and returns the removed mark. -/
theorem claim_C8 (s : Session) :
    (∀ m, s.marks = [m] → s.unmark = (s, Option.none))
    ∧ (∀ m0 m1 rest, s.marks = m0 :: m1 :: rest →
        s.unmark = ({ s with marks := s.marks.dropLast }, s.marks.getLast?)
        ∧ s.marks.getLast?.isSome = true) := by
  constructor
  · intro m hm
    unfold Session.unmark
    rw [hm]
    rfl
  · intro m0 m1 rest hm
    constructor
    · unfold Session.unmark
      rw [if_pos (by rw [hm]; simp)]
    · rw [hm]
      simp [List.getLast?]

theorem claim_C8_witness :
    Session.unmark ⟨"p", [⟨sampleDate, .none, [], ""⟩]⟩
      = (⟨"p", [⟨sampleDate, .none, [], ""⟩]⟩, Option.none)
    ∧ Session.unmark ⟨"p", [⟨sampleDate, .none, [], ""⟩, ⟨sampleDate, .stop, [], "x"⟩]⟩
      = (⟨"p", [⟨sampleDate, .none, [], ""⟩]⟩, some ⟨sampleDate, .stop, [], "x"⟩) := by
  constructor
  · exact (claim_C8 ⟨"p", [⟨sampleDate, .none, [], ""⟩]⟩).1 ⟨sampleDate, .none, [], ""⟩ rfl
  · have h := ((claim_C8 ⟨"p", [⟨sampleDate, .none, [], ""⟩, ⟨sampleDate, .stop, [], "x"⟩]⟩).2
      ⟨sampleDate, .none, [], ""⟩ ⟨sampleDate, .stop, [], "x"⟩ [] rfl).1
    exact h.trans (by rfl)

theorem getTimeGo_spec (active : Bool) (now : CDateTime) :
    ∀ (rest : List Mark) (pred : Mark),
      (∀ p ∈ (pred :: rest).zip rest, p.1.attr ≠ Attribute.skip → p.1.date.ts ≤ p.2.date.ts) →
      (∀ lm, (pred :: rest).getLast? = some lm → active = true →
        lm.attr ≠ Attribute.skip → lm.date.ts ≤ now.ts) →
      getTimeGo active now pred rest = some (specSessionTime active now (pred :: rest)) := by
  intro rest
  induction rest with
  | nil =>
    intro pred _ hlast
    by_cases h : active = true ∧ pred.attr ≠ Attribute.skip
    · have hle : pred.date.ts ≤ now.ts := hlast pred rfl h.1 h.2
      simp only [getTimeGo, if_pos h, specSessionTime]
      simp only [List.zip, List.zipWith, List.map_nil, List.sum_nil, List.getLast?_singleton,
        if_pos h, Nat.zero_add]
      unfold DateTime.get_time
      rw [if_pos (by omega)]
    · simp only [getTimeGo, if_neg h, specSessionTime]
      simp only [List.zip, List.zipWith, List.map_nil, List.sum_nil, List.getLast?_singleton,
        if_neg h, Nat.zero_add]
  | cons m ms ih =>
    intro pred hpairs hlast
    have hpairsTail : ∀ p ∈ (m :: ms).zip ms, p.1.attr ≠ Attribute.skip → p.1.date.ts ≤ p.2.date.ts := by
      intro p hp
      exact hpairs p (by simp [List.zip_cons_cons] at hp ⊢; exact Or.inr hp)
    have hlastTail : ∀ lm, (m :: ms).getLast? = some lm → active = true →
        lm.attr ≠ Attribute.skip → lm.date.ts ≤ now.ts := by
      intro lm hlm
      exact hlast lm (by rw [List.getLast?_cons_cons]; exact hlm)
    have hspec : specSessionTime active now (pred :: m :: ms)
        = (if pred.attr = Attribute.skip then 0 else (m.date.ts - pred.date.ts).toNat)
          + specSessionTime active now (m :: ms) := by
      simp only [specSessionTime, List.tail_cons, List.zip_cons_cons, List.map_cons,
        List.sum_cons, List.getLast?_cons_cons]
      omega
    rw [hspec]
    by_cases hsk : pred.attr ≠ Attribute.skip
    · have hle : pred.date.ts ≤ m.date.ts :=
        hpairs (pred, m) (by simp [List.zip_cons_cons]) hsk
      simp only [getTimeGo, if_pos hsk]
      unfold DateTime.get_time
      rw [if_pos (by omega)]
      rw [ih m hpairsTail hlastTail]
      rw [if_neg (by simpa using hsk)]
      rfl
    · simp only [getTimeGo, if_neg hsk]
      rw [ih m hpairsTail hlastTail]
      simp only [ne_eq, not_not] at hsk
      rw [if_pos hsk, Nat.zero_add]

/-- Claim C2: `get_time` equals the sum, over consecutive mark pairs whose
first mark is not skipped, of the elapsed milliseconds between them, plus
the elapsed time from the last mark to the current instant exactly when
the session is active and the last mark is not skipped; in particular a
Skip never suppresses the interval ending at the mark carrying it, and an
Ended session includes no time after its last mark. -/
theorem claim_C2 (s : Session) (now : CDateTime) (hne : s.marks ≠ [])
    (hpairs : ∀ p ∈ s.marks.zip s.marks.tail,
      p.1.attr ≠ Attribute.skip → p.1.date.ts ≤ p.2.date.ts)
    (hlast : ∀ lm, s.marks.getLast? = some lm → s.is_active = true →
      lm.attr ≠ Attribute.skip → lm.date.ts ≤ now.ts) :
    s.get_time now = some (specSessionTime s.is_active now s.marks) := by
  obtain ⟨m0, rest, hm⟩ : ∃ m0 rest, s.marks = m0 :: rest := by
    cases h : s.marks with
    | nil => exact absurd h hne
    | cons a b => exact ⟨a, b, rfl⟩
  have hget : s.get_time now = getTimeGo s.is_active now m0 rest := by
    unfold Session.get_time
    rw [hm]
  rw [hget, hm]
  exact getTimeGo_spec s.is_active now rest m0
    (by rw [hm] at hpairs; simpa using hpairs)
    (by rw [hm] at hlast; exact hlast)

theorem claim_C2_witness :
    Session.get_time
        ⟨"p", [⟨sampleDate, .none, [], ""⟩,
               ⟨⟨sampleDate.ts + 3600000, sampleDate.offMin⟩, .none, [], ""⟩,
               ⟨⟨sampleDate.ts + 7200000, sampleDate.offMin⟩, .stop, [], ""⟩]⟩
        ⟨sampleDate.ts + 10800000, sampleDate.offMin⟩
      = some 7200000 := by
  have h := claim_C2
    ⟨"p", [⟨sampleDate, .none, [], ""⟩,
           ⟨⟨sampleDate.ts + 3600000, sampleDate.offMin⟩, .none, [], ""⟩,
           ⟨⟨sampleDate.ts + 7200000, sampleDate.offMin⟩, .stop, [], ""⟩]⟩
    ⟨sampleDate.ts + 10800000, sampleDate.offMin⟩
    (by decide)
    (by decide)
    (fun lm _ hact => absurd hact (by decide))
  exact h.trans (by decide)

theorem foldl_option_bind_none (f : Session → Option Nat) (l : List Session) :
    l.foldl (fun acc v => acc.bind fun a => (f v).map fun t => a + t) Option.none
      = Option.none := by
  induction l with
  | nil => rfl
  | cons v l ih => simpa using ih

theorem foldl_option_sumTimes (now : CDateTime) :
    ∀ (l : List Session) (a : Nat),
      l.foldl (fun acc v => acc.bind fun x => (Session.get_time v now).map fun t => x + t)
          (some a)
        = (sumTimes now l).map (fun r => a + r) := by
  intro l
  induction l with
  | nil => intro a; rfl
  | cons v l ih =>
    intro a
    cases hf : Session.get_time v now with
    | none =>
      have hstep : ((some a).bind fun x => (Session.get_time v now).map fun u => x + u)
          = Option.none := by rw [hf]; rfl
      simp only [List.foldl_cons, hstep, sumTimes, hf, Option.none_bind]
      exact foldl_option_bind_none (fun v => Session.get_time v now) l
    | some t =>
      simp only [List.foldl_cons, hf, sumTimes]
      have hstep : ((some a).bind fun x => (some t).map fun u => x + u) = some (a + t) := rfl
      rw [hstep, ih (a + t)]
      cases hml : sumTimes now l with
      | none => rfl
      | some r => simp [Nat.add_assoc]

theorem start_of_week_props (d : CDateTime) :
    DateTime.num_days_from_monday (DateTime.get_start_of_week d) = 0
    ∧ DateTime.ms_of_day (DateTime.get_start_of_week d) = 0
    ∧ (DateTime.get_start_of_week d).ts ≤ d.ts
    ∧ d.ts < (DateTime.get_start_of_week d).ts + 7 * 86400000 := by
  simp only [DateTime.get_start_of_week, DateTime.num_days_from_monday, DateTime.with_midnight,
    DateTime.local_day, DateTime.local_millis, DateTime.ms_of_day]
  omega

/-- Claim C6: the weekly aggregate uses `start_of_week` = Monday 00:00:00
local time of the week containing the most recent session's start date,
and equals the sum of `get_time` over exactly those sessions whose own
start date (first mark's date) is on or after `start_of_week`; each
session is counted wholly or not at all. -/
theorem claim_C6 (sessions : List Session) (now : CDateTime) (lastSession : Session)
    (hlast : sessions.getLast? = some lastSession) :
    DateTime.num_days_from_monday (DateTime.get_start_of_week lastSession.start) = 0
    ∧ DateTime.ms_of_day (DateTime.get_start_of_week lastSession.start) = 0
    ∧ (DateTime.get_start_of_week lastSession.start).ts ≤ lastSession.start.ts
    ∧ lastSession.start.ts
        < (DateTime.get_start_of_week lastSession.start).ts + 7 * 86400000
    ∧ Aggregator.week_time sessions now = specWeekTime sessions now := by
  obtain ⟨h1, h2, h3, h4⟩ := start_of_week_props lastSession.start
  refine ⟨h1, h2, h3, h4, ?_⟩
  have hfilter :
      sessions.filter
        (fun v => decide (0 ≤ (Session.start v).ts
          - (DateTime.get_start_of_week lastSession.start).ts))
      = sessions.filter
        (fun v => decide ((DateTime.get_start_of_week lastSession.start).ts
          ≤ (Session.start v).ts)) :=
    List.filter_congr (fun v _ => by rw [decide_eq_decide]; omega)
  simp only [Aggregator.week_time, specWeekTime, hlast]
  rw [hfilter, foldl_option_sumTimes]
  cases hml : sumTimes now (sessions.filter
      (fun v => decide ((DateTime.get_start_of_week lastSession.start).ts
        ≤ (Session.start v).ts))) with
  | none => rfl
  | some r => simp

theorem claim_C6_witness :
    DateTime.num_days_from_monday
        (DateTime.get_start_of_week (Session.start ⟨"p", [⟨sampleDate, .stop, [], ""⟩]⟩)) = 0
    ∧ DateTime.ms_of_day
        (DateTime.get_start_of_week (Session.start ⟨"p", [⟨sampleDate, .stop, [], ""⟩]⟩)) = 0
    ∧ (DateTime.get_start_of_week (Session.start ⟨"p", [⟨sampleDate, .stop, [], ""⟩]⟩)).ts
        ≤ (Session.start ⟨"p", [⟨sampleDate, .stop, [], ""⟩]⟩).ts
    ∧ (Session.start ⟨"p", [⟨sampleDate, .stop, [], ""⟩]⟩).ts
        < (DateTime.get_start_of_week (Session.start ⟨"p", [⟨sampleDate, .stop, [], ""⟩]⟩)).ts
          + 7 * 86400000
    ∧ Aggregator.week_time
        [⟨"q", [⟨⟨sampleDate.ts - 9 * 86400000, sampleDate.offMin⟩, .stop, [], ""⟩]⟩,
         ⟨"r", [⟨⟨sampleDate.ts - 86400000, sampleDate.offMin⟩, .stop, [], ""⟩]⟩,
         ⟨"p", [⟨sampleDate, .stop, [], ""⟩]⟩] sampleDate
      = specWeekTime
        [⟨"q", [⟨⟨sampleDate.ts - 9 * 86400000, sampleDate.offMin⟩, .stop, [], ""⟩]⟩,
         ⟨"r", [⟨⟨sampleDate.ts - 86400000, sampleDate.offMin⟩, .stop, [], ""⟩]⟩,
         ⟨"p", [⟨sampleDate, .stop, [], ""⟩]⟩] sampleDate :=
  claim_C6
    [⟨"q", [⟨⟨sampleDate.ts - 9 * 86400000, sampleDate.offMin⟩, .stop, [], ""⟩]⟩,
     ⟨"r", [⟨⟨sampleDate.ts - 86400000, sampleDate.offMin⟩, .stop, [], ""⟩]⟩,
     ⟨"p", [⟨sampleDate, .stop, [], ""⟩]⟩] sampleDate ⟨"p", [⟨sampleDate, .stop, [], ""⟩]⟩ rfl

/-- Claim C1: the round-trip `decode(encode(s)) == s` fails on the code; a
session holding one mark with a tag and no attribute (constructible via
`new` then `tag`) encodes with the tag line directly after the heading,
and decoding that text drops the tag and turns the tag line into contents,
contradicting the claim and the repository's own test
`mark_to_string_from_string_works`. -/
theorem claim_C1_code_bug :
    Session.to_file ⟨"p", [⟨sampleDate, .none, [⟨"rust"⟩], ""⟩]⟩
      = .ok ⟨"p",
        "# Session\n\n## Marks\n\n### 2002-05-08 12:00:00 +00:00\n\n- tag `rust`"⟩
    ∧ Session.from_file
        ⟨"p", "# Session\n\n## Marks\n\n### 2002-05-08 12:00:00 +00:00\n\n- tag `rust`"⟩
      = .ok ⟨"p", [⟨sampleDate, .none, [], "- tag `rust`"⟩]⟩
    ∧ (⟨"p", [⟨sampleDate, .none, [], "- tag `rust`"⟩]⟩ : Session)
      ≠ ⟨"p", [⟨sampleDate, .none, [⟨"rust"⟩], ""⟩]⟩ :=
  ⟨rfl, rfl, by decide⟩

end TimeTracker
